import Mathlib

/-!
Shallow embedding of two Caffe layers from synopsys-caffe:
`src/caffe/layers/smooth_L1_loss_layer.cpp` (SmoothL1LossLayer) and
`src/caffe/layers/round_layer.cpp` (RoundLayer).

Blobs are modelled as a NCHW shape together with a value buffer (`data`)
and a gradient buffer (`diff`), each an infinite array `ℕ → ℚ`; the layer
code only ever touches a prefix of length `count`.  Floating-point
arithmetic is modelled by exact rational arithmetic, which preserves the
branch structure and algebra of the kernels.
-/

namespace SynopsysCaffe

/-- C `fabs`, as the source uses it on `Dtype` values. -/
def fabs (x : ℚ) : ℚ := if x < 0 then -x else x

/-- A Caffe blob: NCHW shape plus value (`data`) and gradient (`diff`) views. -/
structure Blob where
  num : ℕ
  channels : ℕ
  height : ℕ
  width : ℕ
  data : ℕ → ℚ
  diff : ℕ → ℚ

/-- `Blob::count()`: total number of elements, `num*channels*height*width`. -/
def Blob.count (b : Blob) : ℕ := b.num * b.channels * b.height * b.width

/-- Placeholder blob used for out-of-range `bottom[i]` accesses (the host
framework guarantees these never happen on the paths the layers take). -/
def blobDefault : Blob := ⟨0, 0, 0, 0, fun _ => 0, fun _ => 0⟩

/-- `bottom[i]` on the C++ `vector<Blob*>`. -/
def getB (bottom : List Blob) (i : ℕ) : Blob := bottom.getD i blobDefault

/-- Layer state of `SmoothL1LossLayer`: the cached `sigma2_`, the
`has_weights_` flag and the three scratch blobs `diff_`, `errors_`, `ones_`. -/
structure SmoothL1State where
  sigma2 : ℚ
  hasWeights : Bool
  diffB : Blob
  errorsB : Blob
  onesB : Blob

/-- `SmoothL1LossLayer::LayerSetUp`: caches `sigma2_ = sigma*sigma` and sets
`has_weights_ = (bottom.size() >= 3)`. -/
def SmoothL1LayerSetUp (sigma : ℚ) (bottomSize : ℕ) (s : SmoothL1State) :
    SmoothL1State :=
  { s with sigma2 := sigma * sigma, hasWeights := decide (3 ≤ bottomSize) }

/-- The conjunction of the `CHECK_EQ` shape checks of
`SmoothL1LossLayer::Reshape` (channels/height/width of `bottom[1]`, of
`bottom[2]` when `has_weights_`, and of `bottom[3]` when moreover
`bottom.size() > 3`). -/
def smoothL1ReshapeChecks (hasWeights : Bool) (bottom : List Blob) : Bool :=
  let b0 := getB bottom 0
  let b1 := getB bottom 1
  (b0.channels == b1.channels) && (b0.height == b1.height) &&
    (b0.width == b1.width) &&
  (if hasWeights then
    let b2 := getB bottom 2
    (b0.channels == b2.channels) && (b0.height == b2.height) &&
      (b0.width == b2.width) &&
    (if 3 < bottom.length then
      let b3 := getB bottom 3
      (b0.channels == b3.channels) && (b0.height == b3.height) &&
        (b0.width == b3.width)
    else true)
  else true)

/-- `Blob::Reshape(n, c, h, w)` on a scratch blob: sets the shape, keeps the
(unspecified) buffer contents. -/
def reshapeTo (b src : Blob) : Blob :=
  { b with num := src.num, channels := src.channels,
           height := src.height, width := src.width }

/-- `SmoothL1LossLayer::Reshape`: runs the `CHECK_EQ` shape checks (`none`
models a fatal `CHECK` failure), then reshapes `diff_`, `errors_`, `ones_`
to the shape of `bottom[0]` and fills the first `count` entries of `ones_`
with 1. -/
def SmoothL1Reshape (s : SmoothL1State) (bottom : List Blob) :
    Option SmoothL1State :=
  if smoothL1ReshapeChecks s.hasWeights bottom then
    let b0 := getB bottom 0
    let ones0 := reshapeTo s.onesB b0
    some { s with
      diffB := reshapeTo s.diffB b0
      errorsB := reshapeTo s.errorsB b0
      onesB := { ones0 with
        data := fun i => if i < b0.count then 1 else ones0.data i } }
  else none

/-- The per-element smooth-L1 forward branch (lines 77–85 of the source):
`0.5*val*val*sigma2` when `fabs val < 1/sigma2`, else `fabs val - 0.5/sigma2`. -/
def smoothL1Error (sigma2 v : ℚ) : ℚ :=
  if fabs v < 1 / sigma2 then (1/2) * v * v * sigma2
  else fabs v - (1/2) / sigma2

/-- The per-element smooth-L1 backward branch (lines 104–113 of the source):
`sigma2*val` when `fabs val < 1/sigma2`, else the sign computed as
`(0 < val) - (val < 0)`. -/
def smoothL1Grad (sigma2 v : ℚ) : ℚ :=
  if fabs v < 1 / sigma2 then sigma2 * v
  else (if 0 < v then (1 : ℚ) else 0) - (if v < 0 then (1 : ℚ) else 0)

/-- The contents of the `diff_` buffer after the `caffe_sub` and (when
`has_weights_`) `caffe_mul` calls of `Forward_cpu` (lines 62–74): the first
`bottom[0]->count()` entries hold `bottom0 - bottom1` (times `bottom2` when
`has_weights_`), the rest keep their previous contents. -/
def smoothL1DiffData (s : SmoothL1State) (bottom : List Blob) : ℕ → ℚ :=
  fun i =>
    if i < (getB bottom 0).count then
      if s.hasWeights then
        (getB bottom 2).data i *
          ((getB bottom 0).data i - (getB bottom 1).data i)
      else (getB bottom 0).data i - (getB bottom 1).data i
    else s.diffB.data i

/-- The contents of the `errors_` buffer after the branch loop and the
optional outside-weight `caffe_mul` of `Forward_cpu` (lines 75–92). -/
def smoothL1ErrData (s : SmoothL1State) (bottom : List Blob) : ℕ → ℚ :=
  fun i =>
    if i < (getB bottom 0).count then
      if s.hasWeights && decide (3 < bottom.length) then
        (getB bottom 3).data i *
          smoothL1Error s.sigma2 (smoothL1DiffData s bottom i)
      else smoothL1Error s.sigma2 (smoothL1DiffData s bottom i)
    else s.errorsB.data i

/-- The scalar written into `top[0]` by `Forward_cpu` (lines 95–96):
`caffe_cpu_dot(count, ones_, errors_) / bottom[0]->num()`. -/
def smoothL1Loss (s : SmoothL1State) (bottom : List Blob) : ℚ :=
  (∑ i ∈ Finset.range (getB bottom 0).count,
      s.onesB.data i * smoothL1ErrData s bottom i) /
    ((getB bottom 0).num : ℚ)

/-- `SmoothL1LossLayer::Forward_cpu`: computes `diff_ = bottom0 - bottom1`
(times `bottom2` when `has_weights_`), the per-element `errors_`
(times `bottom3` when `has_weights_ && bottom.size() > 3`), and writes
`dot(ones_, errors_) / bottom[0]->num()` into `top[0]` at index 0.
Returns the updated layer state and the updated `top[0]` blob. -/
def SmoothL1Forward (s : SmoothL1State) (bottom : List Blob) (top : Blob) :
    SmoothL1State × Blob :=
  ({ s with
      diffB := { s.diffB with data := smoothL1DiffData s bottom }
      errorsB := { s.errorsB with data := smoothL1ErrData s bottom } },
   { top with data := fun i =>
      if i = 0 then smoothL1Loss s bottom else top.data i })

/-- The contents of the `diff_` buffer after the in-place derivative loop of
`Backward_cpu` (lines 102–113): the first `diff_.count()` entries are
overwritten with the per-element gradient, the rest keep their contents. -/
def smoothL1NewDiff (s : SmoothL1State) : ℕ → ℚ :=
  fun i =>
    if i < s.diffB.count then smoothL1Grad s.sigma2 (s.diffB.data i)
    else s.diffB.data i

/-- The gradient buffer of `bottom[idx]` (here `b`) after the
`caffe_cpu_axpby` (with `beta = 0`, i.e. overwrite) and the optional
inside/outside-weight `caffe_mul` calls, all over `diff_.count()` elements
(lines 116–140). -/
def smoothL1GradData (s : SmoothL1State) (top : Blob) (bottom : List Blob)
    (idx : ℕ) (b : Blob) : ℕ → ℚ :=
  fun j =>
    if j < s.diffB.count then
      let sign : ℚ := if idx = 0 then 1 else -1
      let alpha : ℚ := sign * top.diff 0 / (b.num : ℚ)
      let g := alpha * smoothL1NewDiff s j
      let g := if s.hasWeights then (getB bottom 2).data j * g else g
      if s.hasWeights && decide (3 < bottom.length) then
        (getB bottom 3).data j * g
      else g
    else b.diff j

/-- `SmoothL1LossLayer::Backward_cpu`: overwrites `diff_` in place with the
per-element gradient, then for each of `bottom[0]`, `bottom[1]` with its
`propagate_down` flag set overwrites (`caffe_cpu_axpby` with `beta = 0`) the
first `diff_.count()` entries of its gradient buffer with
`alpha * diff_[j]`, `alpha = (±1) * top[0]->cpu_diff()[0] / bottom[i]->num()`,
then multiplies elementwise by `bottom[2]` when `has_weights_` and by
`bottom[3]` when moreover `bottom.size() > 3`.
Returns the updated layer state and the updated bottom list. -/
def SmoothL1Backward (s : SmoothL1State) (top : Blob)
    (propagateDown : List Bool) (bottom : List Blob) :
    SmoothL1State × List Blob :=
  let bottom' := bottom.mapIdx fun idx b =>
    if idx < 2 && propagateDown.getD idx false then
      { b with diff := smoothL1GradData s top bottom idx b }
    else b
  ({ s with diffB := { s.diffB with data := smoothL1NewDiff s } }, bottom')

/-- C `rint` under the default IEEE rounding mode (round to nearest,
ties to even), on exact rationals. -/
def rint (x : ℚ) : ℚ :=
  if x - (Rat.floor x : ℚ) < 1/2 then (Rat.floor x : ℚ)
  else if (1:ℚ)/2 < x - (Rat.floor x : ℚ) then ((Rat.floor x + 1 : ℤ) : ℚ)
  else if Rat.floor x % 2 = 0 then (Rat.floor x : ℚ)
  else ((Rat.floor x + 1 : ℤ) : ℚ)

/-- `RoundLayer::Reshape`: `top[0]->ReshapeLike(*bottom[0])`, then
`CHECK_EQ(count, top[0]->count())` with `count` read from `bottom[0]` before
the reshape (`none` models a fatal `CHECK` failure). -/
def RoundReshape (bottom top : Blob) : Option Blob :=
  let count := bottom.count
  let top' := reshapeTo top bottom
  if count = top'.count then some top' else none

/-- `RoundLayer::Forward_cpu`: `top_data[i] = rint(bottom_data[i])` for every
`i < bottom[0]->count()`. -/
def RoundForward (bottom top : Blob) : Blob :=
  { top with data := fun i =>
      if i < bottom.count then rint (bottom.data i) else top.data i }

/-! ### Helper lemmas -/

theorem fabs_eq_abs (x : ℚ) : fabs x = |x| := by
  rw [fabs]
  split_ifs with h
  · exact (abs_of_neg h).symm
  · exact (abs_of_nonneg (le_of_not_lt h)).symm

theorem ratFloor_eq_intFloor (q : ℚ) : Rat.floor q = ⌊q⌋ :=
  (Rat.floor_def' q).trans Rat.floor_def.symm

/-- Channel/height/width agreement between two blobs (the only dimensions the
smooth-L1 `Reshape` checks). -/
def cwhMatch (a b : Blob) : Prop :=
  a.channels = b.channels ∧ a.height = b.height ∧ a.width = b.width

/-- Full NCHW shape agreement between two blobs. -/
def sameShape (a b : Blob) : Prop :=
  a.num = b.num ∧ a.channels = b.channels ∧ a.height = b.height ∧
    a.width = b.width

instance : DecidablePred fun p : Blob × Blob => cwhMatch p.1 p.2 := by
  intro p; unfold cwhMatch; infer_instance

theorem getB_mapIdx (l : List Blob) (f : ℕ → Blob → Blob) (i : ℕ)
    (h : i < l.length) : getB (l.mapIdx f) i = f i (getB l i) := by
  unfold getB
  rw [List.getD_eq_getElem?_getD, List.getD_eq_getElem?_getD,
    List.getElem?_eq_getElem (by simpa using h), List.getElem?_eq_getElem h]
  simp

/-! ### C6: continuity of the loss and its derivative at the knee -/

/-- C6: for `sigma > 0` and `|v| = 1/sigma2` with `sigma2 = sigma*sigma`, the
two forward branch expressions of `smoothL1Error` both evaluate to
`0.5/sigma2` (so `smoothL1Error` itself does), and the two backward branch
expressions of `smoothL1Grad` have the same magnitude 1 there: the piecewise
loss and its derivative are continuous at the knee. -/
theorem smoothL1_knee_continuous (sigma v : ℚ) (hs : 0 < sigma)
    (hv : |v| = 1 / (sigma * sigma)) :
    (1/2) * v * v * (sigma * sigma) = (1/2) / (sigma * sigma) ∧
    |v| - (1/2) / (sigma * sigma) = (1/2) / (sigma * sigma) ∧
    smoothL1Error (sigma * sigma) v = (1/2) / (sigma * sigma) ∧
    |(sigma * sigma) * v| =
      |(if 0 < v then (1 : ℚ) else 0) - (if v < 0 then (1 : ℚ) else 0)| ∧
    |smoothL1Grad (sigma * sigma) v| = 1 := by
  have hs2 : 0 < sigma * sigma := mul_pos hs hs
  have hvv : v * v = (1 / (sigma * sigma)) * (1 / (sigma * sigma)) := by
    rw [← hv]; rw [← abs_mul_abs_self]
  have hquad : (1/2) * v * v * (sigma * sigma) = (1/2) / (sigma * sigma) := by
    rw [mul_assoc ((1:ℚ)/2) v v, hvv]
    field_simp
    ring
  have hlin : |v| - (1/2) / (sigma * sigma) = (1/2) / (sigma * sigma) := by
    rw [hv]; ring
  have hne : ¬ fabs v < 1 / (sigma * sigma) := by
    rw [fabs_eq_abs, hv]
    exact lt_irrefl _
  have herr : smoothL1Error (sigma * sigma) v = (1/2) / (sigma * sigma) := by
    rw [smoothL1Error, if_neg hne, fabs_eq_abs, hlin]
  have hvne : v ≠ 0 := by
    intro h0
    rw [h0, abs_zero] at hv
    exact absurd hv.symm (ne_of_gt (by positivity))
  have habs : |(sigma * sigma) * v| = 1 := by
    rw [abs_mul, abs_of_pos hs2, hv]
    field_simp
  have hsign :
      |(if 0 < v then (1 : ℚ) else 0) - (if v < 0 then (1 : ℚ) else 0)| = 1 := by
    rcases lt_or_gt_of_ne hvne with h | h
    · rw [if_neg (asymm h), if_pos h]; norm_num
    · rw [if_pos h, if_neg (asymm h)]; norm_num
  refine ⟨hquad, hlin, herr, habs.trans hsign.symm, ?_⟩
  rw [smoothL1Grad, if_neg hne, hsign]

/-- A propagated input's blob after `Backward_cpu`: its `diff` view is
replaced by `smoothL1GradData`. -/
theorem getB_backward (s : SmoothL1State) (top : Blob) (pd : List Bool)
    (bottom : List Blob) (i : ℕ) (hi : i < 2) (hib : i < bottom.length)
    (hpd : pd.getD i false = true) :
    getB (SmoothL1Backward s top pd bottom).2 i =
      { getB bottom i with diff := smoothL1GradData s top bottom i (getB bottom i) } := by
  have h2 : (SmoothL1Backward s top pd bottom).2 =
      bottom.mapIdx fun idx b =>
        if idx < 2 && pd.getD idx false then
          { b with diff := smoothL1GradData s top bottom idx b }
        else b := rfl
  rw [h2, getB_mapIdx _ _ i hib,
    if_pos (by simp only [Bool.and_eq_true, decide_eq_true_eq]; exact ⟨hi, hpd⟩)]

/-! ### C1: forward per-element computation -/

/-- C1: for every `i < count(bottom[0])`, `Forward_cpu` computes
`diff[i] = prediction[i] - target[i]`, multiplied by `inside_weight[i]` when
at least 3 inputs are supplied, and `errors[i] = 0.5*diff[i]^2*sigma2` if
`|diff[i]| < 1/sigma2`, else `|diff[i]| - 0.5/sigma2`; when more than 3
inputs are supplied `errors[i]` is additionally multiplied by
`outside_weight[i]`. -/
theorem smoothL1_forward_elementwise (s : SmoothL1State) (bottom : List Blob)
    (top : Blob) (hw : s.hasWeights = decide (3 ≤ bottom.length))
    (i : ℕ) (hi : i < (getB bottom 0).count) (d e : ℚ)
    (hd : d = if 3 ≤ bottom.length then
        (getB bottom 2).data i *
          ((getB bottom 0).data i - (getB bottom 1).data i)
      else (getB bottom 0).data i - (getB bottom 1).data i)
    (he : e = if |d| < 1 / s.sigma2 then (1/2) * d * d * s.sigma2
      else |d| - (1/2) / s.sigma2) :
    (SmoothL1Forward s bottom top).1.diffB.data i = d ∧
    (SmoothL1Forward s bottom top).1.errorsB.data i =
      if 3 < bottom.length then (getB bottom 3).data i * e else e := by
  subst hd he
  constructor
  · by_cases h3 : 3 ≤ bottom.length <;>
      simp [SmoothL1Forward, smoothL1DiffData, hw, h3, hi]
  · by_cases h4 : 3 < bottom.length
    · have h3 : 3 ≤ bottom.length := le_of_lt h4
      simp [SmoothL1Forward, smoothL1ErrData, smoothL1DiffData, smoothL1Error,
        fabs_eq_abs, hw, h3, h4, hi]
    · by_cases h3 : 3 ≤ bottom.length <;>
        simp [SmoothL1Forward, smoothL1ErrData, smoothL1DiffData,
          smoothL1Error, fabs_eq_abs, hw, h3, h4, hi]

/-! ### C2: backward per-element gradient -/

/-- C2: the per-element gradient is `sigma2*diff[j]` when
`|diff[j]| < 1/sigma2` and `sign(diff[j])` otherwise (`sign 0 = 0` via the
`(0 < x) - (x < 0)` construction); each propagated input `i ∈ {0, 1}` has its
gradient buffer overwritten (not accumulated) with `alpha * grad[j]`,
`alpha = (±1) * upstream / num(bottom[i])`, then multiplied elementwise by
the inside weights (when at least 3 inputs) and the outside weights (when
more than 3 inputs). -/
theorem smoothL1_backward_elementwise (s : SmoothL1State) (top : Blob)
    (pd : List Bool) (bottom : List Blob)
    (hw : s.hasWeights = decide (3 ≤ bottom.length))
    (i : ℕ) (hi : i < 2) (hib : i < bottom.length)
    (hpd : pd.getD i false = true)
    (j : ℕ) (hj : j < s.diffB.count) (g a : ℚ)
    (hg : g = if |s.diffB.data j| < 1 / s.sigma2 then s.sigma2 * s.diffB.data j
      else (if 0 < s.diffB.data j then (1 : ℚ) else 0) -
        (if s.diffB.data j < 0 then (1 : ℚ) else 0))
    (ha : a = (if i = 0 then (1 : ℚ) else -1) * top.diff 0 /
      ((getB bottom i).num : ℚ)) :
    (getB (SmoothL1Backward s top pd bottom).2 i).diff j =
      (if 3 < bottom.length then (getB bottom 3).data j else 1) *
        ((if 3 ≤ bottom.length then (getB bottom 2).data j else 1) *
          (a * g)) := by
  subst hg ha
  have h2 : (SmoothL1Backward s top pd bottom).2 = bottom.mapIdx fun idx b =>
      if idx < 2 && pd.getD idx false then
        { b with diff := smoothL1GradData s top bottom idx b }
      else b := rfl
  rw [h2, getB_mapIdx _ _ i hib,
    if_pos (by simp only [Bool.and_eq_true, decide_eq_true_eq]; exact ⟨hi, hpd⟩)]
  show smoothL1GradData s top bottom i (getB bottom i) j = _
  by_cases h4 : 3 < bottom.length
  · have h3 : 3 ≤ bottom.length := le_of_lt h4
    simp [smoothL1GradData, smoothL1NewDiff, smoothL1Grad, fabs_eq_abs,
      hw, h3, h4, hj]
  · by_cases h3 : 3 ≤ bottom.length <;>
      simp [smoothL1GradData, smoothL1NewDiff, smoothL1Grad, fabs_eq_abs,
        hw, h3, h4, hj]

/-! ### C3: the scalar loss and the ones-dot-product -/

/-- C3: the scalar written by `Forward_cpu` into `top[0]` equals the sum of
`errors[i]` over `i < count(bottom[0])` divided by the leading dimension of
`bottom[0]`, and the dot product of the (all-ones) `ones_` buffer with the
errors buffer equals the plain sum of the errors. -/
theorem smoothL1_forward_loss_sum (s : SmoothL1State) (bottom : List Blob)
    (top : Blob) (hones : ∀ i, i < (getB bottom 0).count → s.onesB.data i = 1) :
    (SmoothL1Forward s bottom top).2.data 0 =
      (∑ i ∈ Finset.range (getB bottom 0).count,
          (SmoothL1Forward s bottom top).1.errorsB.data i) /
        ((getB bottom 0).num : ℚ) ∧
    (∑ i ∈ Finset.range (getB bottom 0).count,
        s.onesB.data i * (SmoothL1Forward s bottom top).1.errorsB.data i) =
      ∑ i ∈ Finset.range (getB bottom 0).count,
        (SmoothL1Forward s bottom top).1.errorsB.data i := by
  have herr : (SmoothL1Forward s bottom top).1.errorsB.data =
      smoothL1ErrData s bottom := rfl
  have hdot : (∑ i ∈ Finset.range (getB bottom 0).count,
      s.onesB.data i * smoothL1ErrData s bottom i) =
      ∑ i ∈ Finset.range (getB bottom 0).count, smoothL1ErrData s bottom i :=
    Finset.sum_congr rfl fun i hi => by
      rw [hones i (Finset.mem_range.mp hi), one_mul]
  have htop : (SmoothL1Forward s bottom top).2.data 0 =
      smoothL1Loss s bottom := rfl
  rw [htop, herr]
  exact ⟨by rw [smoothL1Loss, hdot], hdot⟩

/-! ### C4: reshape failure condition and scratch allocation -/

/-- C4: `SmoothL1LossLayer::Reshape` fails fatally iff a channel/height/width
mismatch exists between `bottom[0]` and `bottom[1]`, or (with at least 3
inputs) between `bottom[0]` and `bottom[2]`, or (with more than 3 inputs)
between `bottom[0]` and `bottom[3]`; the leading `num` dimension is never
part of the condition; on success the `diff_`, `errors_` and `ones_` scratch
blobs have exactly the shape of `bottom[0]` and `ones_` is filled with 1. -/
theorem smoothL1_reshape_spec (s : SmoothL1State) (bottom : List Blob)
    (hw : s.hasWeights = decide (3 ≤ bottom.length)) :
    (SmoothL1Reshape s bottom = none ↔
      (¬ cwhMatch (getB bottom 0) (getB bottom 1) ∨
       (3 ≤ bottom.length ∧ ¬ cwhMatch (getB bottom 0) (getB bottom 2)) ∨
       (3 < bottom.length ∧ ¬ cwhMatch (getB bottom 0) (getB bottom 3)))) ∧
    ∀ s', SmoothL1Reshape s bottom = some s' →
      sameShape s'.diffB (getB bottom 0) ∧
      sameShape s'.errorsB (getB bottom 0) ∧
      sameShape s'.onesB (getB bottom 0) ∧
      ∀ i, i < (getB bottom 0).count → s'.onesB.data i = 1 := by
  have hcheck : smoothL1ReshapeChecks s.hasWeights bottom = true ↔
      (cwhMatch (getB bottom 0) (getB bottom 1) ∧
       (3 ≤ bottom.length → cwhMatch (getB bottom 0) (getB bottom 2)) ∧
       (3 < bottom.length → cwhMatch (getB bottom 0) (getB bottom 3))) := by
    rw [smoothL1ReshapeChecks, hw]
    by_cases h4 : 3 < bottom.length
    · have h3 : 3 ≤ bottom.length := le_of_lt h4
      simp [h3, h4, cwhMatch]
      try tauto
    · by_cases h3 : 3 ≤ bottom.length <;>
        · simp [h3, h4, cwhMatch]
          try tauto
  constructor
  · rw [SmoothL1Reshape]
    by_cases hc : smoothL1ReshapeChecks s.hasWeights bottom = true
    · rw [if_pos hc]
      obtain ⟨m1, m2, m3⟩ := hcheck.mp hc
      simp only [reduceCtorEq, false_iff]
      tauto
    · rw [if_neg hc]
      simp only [true_iff]
      rw [hcheck] at hc
      tauto
  · intro s' h
    rw [SmoothL1Reshape] at h
    split_ifs at h with hc
    · injection h with h'
      subst h'
      refine ⟨⟨rfl, rfl, rfl, rfl⟩, ⟨rfl, rfl, rfl, rfl⟩,
        ⟨rfl, rfl, rfl, rfl⟩, ?_⟩
      intro i hi
      simp [reshapeTo, hi]

/-! ### C5: rounding layer -/

theorem rint_near_aux (x : ℚ) (f m : ℤ) (h0 : (f : ℚ) ≤ x)
    (h1 : x < (f : ℚ) + 1) :
    ∀ y : ℚ, (y = (f : ℚ) ∨ y = (f : ℚ) + 1) → |x - y| ≤ 1/2 →
      |x - y| ≤ |x - (m : ℚ)| := by
  intro y hy hd
  rcases le_or_lt (m : ℚ) (f : ℚ) with hm | hm
  · have hxm : 0 ≤ x - (m : ℚ) := by linarith
    rw [abs_of_nonneg hxm]
    rcases hy with rfl | rfl
    · rw [abs_of_nonneg (by linarith)]
      linarith
    · rw [abs_of_nonpos (by linarith)] at hd ⊢
      linarith
  · have hmZ : f < m := by exact_mod_cast hm
    have hm1 : (f : ℚ) + 1 ≤ (m : ℚ) := by
      have h' : f + 1 ≤ m := Int.add_one_le_iff.mpr hmZ
      exact_mod_cast h'
    have hxm : x - (m : ℚ) ≤ 0 := by linarith
    rw [abs_of_nonpos hxm]
    rcases hy with rfl | rfl
    · rw [abs_of_nonneg (by linarith)] at hd ⊢
      linarith
    · rw [abs_of_nonpos (by linarith)]
      linarith

/-- `rint x` is `⌊x⌋` or `⌊x⌋ + 1` and lies within distance 1/2 of `x`. -/
theorem rint_cases (x : ℚ) :
    (rint x = (⌊x⌋ : ℚ) ∨ rint x = (⌊x⌋ : ℚ) + 1) ∧ |x - rint x| ≤ 1/2 := by
  have h0 : ((⌊x⌋ : ℤ) : ℚ) ≤ x := Int.floor_le x
  have h1 : x < ⌊x⌋ + 1 := Int.lt_floor_add_one x
  push_cast at h1
  rw [rint, ratFloor_eq_intFloor]
  split_ifs with hlt hgt hev
  · exact ⟨Or.inl rfl, by rw [abs_of_nonneg (by linarith)]; linarith⟩
  · refine ⟨Or.inr (by push_cast; ring), ?_⟩
    push_cast
    rw [abs_of_nonpos (by linarith)]
    linarith
  · have heq : x - (⌊x⌋ : ℚ) = 1/2 := le_antisymm (le_of_not_lt hgt)
      (le_of_not_lt hlt)
    exact ⟨Or.inl rfl, by rw [abs_of_nonneg (by linarith)]; linarith⟩
  · have heq : x - (⌊x⌋ : ℚ) = 1/2 := le_antisymm (le_of_not_lt hgt)
      (le_of_not_lt hlt)
    refine ⟨Or.inr (by push_cast; ring), ?_⟩
    push_cast
    rw [abs_of_nonpos (by linarith)]
    linarith

/-- Round-to-nearest: `rint x` minimizes the distance to `x` over ℤ. -/
theorem rint_nearest (x : ℚ) (m : ℤ) :
    |x - rint x| ≤ |x - (m : ℚ)| := by
  obtain ⟨hy, hd⟩ := rint_cases x
  have h0 : ((⌊x⌋ : ℤ) : ℚ) ≤ x := Int.floor_le x
  have h1 : x < ⌊x⌋ + 1 := Int.lt_floor_add_one x
  push_cast at h1
  exact rint_near_aux x ⌊x⌋ m h0 h1 (rint x) hy hd

/-- `rint` always returns an integer value. -/
theorem rint_isInt (x : ℚ) : ∃ n : ℤ, rint x = (n : ℚ) := by
  rw [rint]
  split_ifs
  · exact ⟨Rat.floor x, rfl⟩
  · exact ⟨Rat.floor x + 1, rfl⟩
  · exact ⟨Rat.floor x, rfl⟩
  · exact ⟨Rat.floor x + 1, rfl⟩

/-- Exact half-way values are resolved to the even neighbour. -/
theorem rint_tie_even (x : ℚ) (h : |x - rint x| = 1/2) :
    ∃ k : ℤ, rint x = ((2 * k : ℤ) : ℚ) := by
  have h0 : ((⌊x⌋ : ℤ) : ℚ) ≤ x := Int.floor_le x
  have h1 : x < ⌊x⌋ + 1 := Int.lt_floor_add_one x
  push_cast at h1
  rw [rint, ratFloor_eq_intFloor] at h ⊢
  split_ifs at h ⊢ with hlt hgt hev
  · rw [abs_of_nonneg (by linarith)] at h
    exact absurd h (ne_of_lt hlt)
  · push_cast at h
    rw [abs_of_nonpos (by linarith)] at h
    have : x - (⌊x⌋ : ℚ) = 1/2 := by linarith
    exact absurd this (ne_of_gt hgt)
  · obtain ⟨k, hk⟩ := Int.even_iff.mpr hev
    exact ⟨k, by rw [hk]; push_cast; ring⟩
  · have hodd : Odd ⌊x⌋ := Int.odd_iff.mpr
      ((Int.emod_two_eq_zero_or_one ⌊x⌋).resolve_left hev)
    obtain ⟨k, hk⟩ := hodd.add_one
    exact ⟨k, by rw [hk]; push_cast; ring⟩

/-- C5: after `RoundLayer::Reshape` and `Forward_cpu`, every output element
`i < count` is `rint` of the input element: the integer nearest to the input,
with half-way ties resolved to even (so `rint 2.5 = 2`, `rint 3.5 = 4`,
`rint (-2.5) = -2`), and the output blob has exactly the input's shape. -/
theorem round_forward_spec (bottom top top' : Blob)
    (hre : RoundReshape bottom top = some top')
    (i : ℕ) (hi : i < bottom.count) :
    (RoundForward bottom top').data i = rint (bottom.data i) ∧
    (∃ n : ℤ, rint (bottom.data i) = (n : ℚ)) ∧
    (∀ m : ℤ, |bottom.data i - rint (bottom.data i)| ≤
      |bottom.data i - (m : ℚ)|) ∧
    (|bottom.data i - rint (bottom.data i)| = 1/2 →
      ∃ k : ℤ, rint (bottom.data i) = ((2 * k : ℤ) : ℚ)) ∧
    rint (5/2) = 2 ∧ rint (7/2) = 4 ∧ rint (-5/2) = -2 ∧
    sameShape (RoundForward bottom top') bottom := by
  rw [RoundReshape,
    if_pos (show bottom.count = (reshapeTo top bottom).count from rfl)] at hre
  injection hre with hre
  subst hre
  refine ⟨by simp [RoundForward, hi], rint_isInt _, rint_nearest _,
    rint_tie_even _, ?_, ?_, ?_, rfl, rfl, rfl, rfl⟩
  · rw [rint]; norm_num [ratFloor_eq_intFloor]
  · rw [rint]; norm_num [ratFloor_eq_intFloor]
  · rw [rint]; norm_num [ratFloor_eq_intFloor]

/-! ### C7: zero inside weights mask loss and gradients -/

theorem smoothL1Error_zero (sigma2 : ℚ) (h : 0 ≤ sigma2) :
    smoothL1Error sigma2 0 = 0 := by
  rw [smoothL1Error]
  have hf : fabs 0 = 0 := by simp [fabs]
  split_ifs with hlt
  · ring
  · rw [hf] at hlt
    have h1 : 1 / sigma2 ≤ 0 := le_of_not_lt hlt
    have h2 : sigma2 = 0 := by
      rcases eq_or_lt_of_le h with h' | h'
      · exact h'.symm
      · exact absurd (by positivity : 0 < 1 / sigma2) (not_lt.mpr h1)
    rw [hf, h2]
    norm_num

/-- C7: if the inside-weight buffer `bottom[2]` is identically zero, the
scalar loss produced by `Forward_cpu` is 0 and every gradient element that
`Backward_cpu` writes into a propagated input's gradient buffer is 0,
whatever the prediction and target values are. -/
theorem smoothL1_zero_inside_weights (s : SmoothL1State) (bottom : List Blob)
    (top : Blob) (pd : List Bool) (sigma : ℚ) (hs2 : s.sigma2 = sigma * sigma)
    (hw : s.hasWeights = true) (hlen : 3 ≤ bottom.length)
    (hz : ∀ j, (getB bottom 2).data j = 0) :
    (SmoothL1Forward s bottom top).2.data 0 = 0 ∧
    ∀ i, i < 2 → pd.getD i false = true → ∀ j,
      j < (SmoothL1Forward s bottom top).1.diffB.count →
      (getB (SmoothL1Backward (SmoothL1Forward s bottom top).1 top pd
        bottom).2 i).diff j = 0 := by
  have herr : ∀ i, i < (getB bottom 0).count →
      smoothL1ErrData s bottom i = 0 := by
    intro i hi
    have hdz : smoothL1DiffData s bottom i = 0 := by
      simp [smoothL1DiffData, hi, hw, hz]
    rw [smoothL1ErrData]
    simp only [if_pos hi, hdz]
    rw [smoothL1Error_zero _ (by rw [hs2]; exact mul_self_nonneg sigma)]
    split_ifs <;> simp
  constructor
  · have htop : (SmoothL1Forward s bottom top).2.data 0 =
        smoothL1Loss s bottom := rfl
    rw [htop, smoothL1Loss,
      Finset.sum_eq_zero fun i hi => by
        rw [herr i (Finset.mem_range.mp hi), mul_zero],
      zero_div]
  · intro i hi hpd j hj
    have hib : i < bottom.length := lt_of_lt_of_le hi (by omega)
    rw [getB_backward (SmoothL1Forward s bottom top).1 top pd bottom i hi
      hib hpd]
    show smoothL1GradData (SmoothL1Forward s bottom top).1 top bottom i
      (getB bottom i) j = 0
    have hw' : (SmoothL1Forward s bottom top).1.hasWeights = true := hw
    simp [smoothL1GradData, if_pos hj, hw', hz]

/-! ### C8: loss non-negativity -/

theorem smoothL1Error_nonneg (sigma2 v : ℚ) (h : 0 < sigma2) :
    0 ≤ smoothL1Error sigma2 v := by
  rw [smoothL1Error, fabs_eq_abs]
  split_ifs with hlt
  · nlinarith [mul_self_nonneg v]
  · have hge : 1 / sigma2 ≤ |v| := le_of_not_lt hlt
    have hhalf : (1 : ℚ)/2 / sigma2 ≤ 1 / sigma2 :=
      (div_le_div_iff_of_pos_right h).mpr (by norm_num)
    linarith

/-- C8: with `sigma > 0` (so `sigma2 = sigma^2 > 0`), a filled `ones_`
buffer, and all inside and outside weights nonnegative, the scalar loss
written by `Forward_cpu` is nonnegative. -/
theorem smoothL1_loss_nonneg (s : SmoothL1State) (bottom : List Blob)
    (top : Blob) (sigma : ℚ) (hs : 0 < sigma) (hs2 : s.sigma2 = sigma * sigma)
    (hones : ∀ i, i < (getB bottom 0).count → s.onesB.data i = 1)
    (hin : ∀ j, 0 ≤ (getB bottom 2).data j)
    (hout : ∀ j, 0 ≤ (getB bottom 3).data j) :
    0 ≤ (SmoothL1Forward s bottom top).2.data 0 := by
  have hpos : 0 < s.sigma2 := by rw [hs2]; exact mul_pos hs hs
  have htop : (SmoothL1Forward s bottom top).2.data 0 =
      smoothL1Loss s bottom := rfl
  rw [htop, smoothL1Loss]
  apply div_nonneg
  · apply Finset.sum_nonneg
    intro i hi
    rw [hones i (Finset.mem_range.mp hi), one_mul, smoothL1ErrData]
    rw [if_pos (Finset.mem_range.mp hi)]
    split_ifs
    · exact mul_nonneg (hout i) (smoothL1Error_nonneg _ _ hpos)
    · exact smoothL1Error_nonneg _ _ hpos
  · exact Nat.cast_nonneg _

/-! ### C10: frame effect of the backward pass -/

/-- C10: `Backward_cpu` writes exactly `diff_.count()` gradient elements into
each propagated input's gradient buffer — bounded by the scratch count, not
by that input's own element count — while normalizing `alpha` by that input's
own `num`; gradient elements at index `≥ diff_.count()` are left unchanged;
and it overwrites the first `diff_.count()` entries of the `diff_` scratch
buffer in place with derivative values, destroying the prediction-minus-
target difference computed by `Forward_cpu`. -/
theorem smoothL1_backward_frame (s : SmoothL1State) (top : Blob)
    (pd : List Bool) (bottom : List Blob) :
    (∀ i, i < 2 → i < bottom.length → ∀ j, s.diffB.count ≤ j →
      (getB (SmoothL1Backward s top pd bottom).2 i).diff j =
        (getB bottom i).diff j) ∧
    (∀ i, i < 2 → i < bottom.length → pd.getD i false = true →
      ∀ j, j < s.diffB.count →
      (getB (SmoothL1Backward s top pd bottom).2 i).diff j =
        (if i = 0 then (1 : ℚ) else -1) * top.diff 0 /
            ((getB bottom i).num : ℚ) * smoothL1NewDiff s j *
          (if s.hasWeights then (getB bottom 2).data j else 1) *
          (if s.hasWeights && decide (3 < bottom.length)
            then (getB bottom 3).data j else 1)) ∧
    (∀ j, j < s.diffB.count →
      (SmoothL1Backward s top pd bottom).1.diffB.data j =
        smoothL1Grad s.sigma2 (s.diffB.data j)) ∧
    (∀ j, s.diffB.count ≤ j →
      (SmoothL1Backward s top pd bottom).1.diffB.data j = s.diffB.data j) := by
  have h2 : (SmoothL1Backward s top pd bottom).2 =
      bottom.mapIdx fun idx b =>
        if idx < 2 && pd.getD idx false then
          { b with diff := smoothL1GradData s top bottom idx b }
        else b := rfl
  refine ⟨?_, ?_, ?_, ?_⟩
  · intro i hi hib j hj
    rw [h2, getB_mapIdx _ _ i hib]
    by_cases hp : (decide (i < 2) && pd.getD i false) = true
    · rw [if_pos hp]
      show smoothL1GradData s top bottom i (getB bottom i) j = _
      simp only [smoothL1GradData, if_neg (not_lt.mpr hj)]
    · rw [if_neg hp]
  · intro i hi hib hpd j hj
    rw [h2, getB_mapIdx _ _ i hib,
      if_pos (by simp only [Bool.and_eq_true, decide_eq_true_eq]
                 exact ⟨hi, hpd⟩)]
    show smoothL1GradData s top bottom i (getB bottom i) j = _
    simp only [smoothL1GradData, if_pos hj]
    by_cases hwt : s.hasWeights
    · by_cases h4 : 3 < bottom.length
      · simp only [hwt, h4, decide_eq_true_eq, if_true, Bool.true_and,
          if_pos h4]
        split_ifs <;> ring
      · simp only [hwt, if_true]
        split_ifs <;> ring
    · simp only [hwt, if_false, Bool.false_and]
      split_ifs <;> ring
  · intro j hj
    show smoothL1NewDiff s j = _
    simp only [smoothL1NewDiff, if_pos hj]
  · intro j hj
    show smoothL1NewDiff s j = _
    simp only [smoothL1NewDiff, if_neg (not_lt.mpr hj)]

/-! ### C9: determinism of every call -/

/-- C9: every operation of both layers (`Reshape`, `Forward`, `Backward` of
the smooth-L1 loss layer; `Reshape`, `Forward` of the round layer) is
deterministic: equal states, input tensors, upstream gradients, propagate
flags and configuration yield equal outputs and equal written gradient
buffers. -/
theorem layers_deterministic (s1 s2 : SmoothL1State) (b1 b2 : List Blob)
    (t1 t2 : Blob) (p1 p2 : List Bool) (rb1 rb2 rt1 rt2 : Blob)
    (hs : s1 = s2) (hb : b1 = b2) (ht : t1 = t2) (hp : p1 = p2)
    (hrb : rb1 = rb2) (hrt : rt1 = rt2) :
    SmoothL1Reshape s1 b1 = SmoothL1Reshape s2 b2 ∧
    SmoothL1Forward s1 b1 t1 = SmoothL1Forward s2 b2 t2 ∧
    SmoothL1Backward s1 t1 p1 b1 = SmoothL1Backward s2 t2 p2 b2 ∧
    RoundReshape rb1 rt1 = RoundReshape rb2 rt2 ∧
    RoundForward rb1 rt1 = RoundForward rb2 rt2 := by
  subst hs hb ht hp hrb hrt
  exact ⟨rfl, rfl, rfl, rfl, rfl⟩

/-! ### Concrete fixtures for witness instances -/

def wPred : Blob := ⟨1, 1, 1, 1, fun _ => 5, fun _ => 0⟩

def wTarg : Blob := ⟨1, 1, 1, 1, fun _ => 0, fun _ => 0⟩

def wIn : Blob := ⟨1, 1, 1, 1, fun _ => 2, fun _ => 0⟩

def wOut : Blob := ⟨1, 1, 1, 1, fun _ => 3, fun _ => 0⟩

def wZeroW : Blob := ⟨1, 1, 1, 1, fun _ => 0, fun _ => 0⟩

def wScratch : Blob := ⟨1, 1, 1, 1, fun _ => 0, fun _ => 1⟩

def wOnes : Blob := ⟨1, 1, 1, 1, fun _ => 1, fun _ => 1⟩

def wTop : Blob := ⟨1, 1, 1, 1, fun _ => 0, fun _ => 1⟩

def wState2 : SmoothL1State := ⟨1, false, wScratch, wScratch, wOnes⟩

def wState3 : SmoothL1State := ⟨1, true, wScratch, wScratch, wOnes⟩

/-! ### Witnesses -/

/-- Witness for C1 at the spec's scenario (`sigma = 1`, no weights,
`pred = 5`, `target = 0`): `diff[0] = 5` and `errors[0] = 4.5`. -/
theorem smoothL1_forward_elementwise_witness :
    (SmoothL1Forward wState2 [wPred, wTarg] wTop).1.diffB.data 0 = 5 ∧
    (SmoothL1Forward wState2 [wPred, wTarg] wTop).1.errorsB.data 0 = 9/2 := by
  have h := smoothL1_forward_elementwise wState2 [wPred, wTarg] wTop rfl 0
    (by decide) 5 (9/2)
    (by norm_num [getB, wPred, wTarg])
    (by norm_num [wState2])
  exact ⟨h.1, h.2.trans (by norm_num)⟩

/-- Witness for C2: with a zero stored difference the written gradient is 0. -/
theorem smoothL1_backward_elementwise_witness :
    (getB (SmoothL1Backward wState2 wTop [true, true]
      [wPred, wTarg]).2 0).diff 0 = 0 := by
  have h := smoothL1_backward_elementwise wState2 wTop [true, true]
    [wPred, wTarg] rfl 0 (by decide) (by decide) rfl 0 (by decide) 0 1
    (by norm_num [wState2, wScratch])
    (by norm_num [wTop, getB, wPred])
  rw [h]
  norm_num

/-- Witness for C3 at the spec's scenario. -/
theorem smoothL1_forward_loss_sum_witness :
    (SmoothL1Forward wState2 [wPred, wTarg] wTop).2.data 0 =
      (∑ i ∈ Finset.range (getB [wPred, wTarg] 0).count,
        (SmoothL1Forward wState2 [wPred, wTarg] wTop).1.errorsB.data i) /
      ((getB [wPred, wTarg] 0).num : ℚ) :=
  (smoothL1_forward_loss_sum wState2 [wPred, wTarg] wTop fun _ _ => rfl).1

/-- Witness for C4 at a two-input bottom list. -/
theorem smoothL1_reshape_spec_witness :
    SmoothL1Reshape wState2 [wPred, wTarg] = none ↔
      (¬ cwhMatch (getB [wPred, wTarg] 0) (getB [wPred, wTarg] 1) ∨
       (3 ≤ ([wPred, wTarg] : List Blob).length ∧
         ¬ cwhMatch (getB [wPred, wTarg] 0) (getB [wPred, wTarg] 2)) ∨
       (3 < ([wPred, wTarg] : List Blob).length ∧
         ¬ cwhMatch (getB [wPred, wTarg] 0) (getB [wPred, wTarg] 3))) :=
  (smoothL1_reshape_spec wState2 [wPred, wTarg] rfl).1

/-- Witness for C5: rounding the constant-5 input blob. -/
theorem round_forward_spec_witness :
    (RoundForward wPred (reshapeTo wTop wPred)).data 0 = rint 5 ∧
    rint (5/2) = 2 := by
  have h := round_forward_spec wPred wTop (reshapeTo wTop wPred) rfl 0
    (by decide)
  exact ⟨h.1, h.2.2.2.2.1⟩

/-- Witness for C6 at `sigma = 1`, `v = 1`. -/
theorem smoothL1_knee_continuous_witness :
    smoothL1Error (1 * 1) 1 = (1/2) / (1 * 1) ∧
    |smoothL1Grad (1 * 1) 1| = 1 := by
  have h := smoothL1_knee_continuous 1 1 (by norm_num) (by norm_num)
  exact ⟨h.2.2.1, h.2.2.2.2⟩

/-- Witness for C7 with an all-zero inside-weight blob. -/
theorem smoothL1_zero_inside_weights_witness :
    (SmoothL1Forward wState3 [wPred, wTarg, wZeroW] wTop).2.data 0 = 0 ∧
    (getB (SmoothL1Backward
      (SmoothL1Forward wState3 [wPred, wTarg, wZeroW] wTop).1 wTop
      [true, true] [wPred, wTarg, wZeroW]).2 0).diff 0 = 0 := by
  have h := smoothL1_zero_inside_weights wState3 [wPred, wTarg, wZeroW] wTop
    [true, true] 1 (by norm_num [wState3]) rfl (by decide) (fun _ => rfl)
  exact ⟨h.1, h.2 0 (by decide) rfl 0 (by decide)⟩

/-- Witness for C8 with positive weights. -/
theorem smoothL1_loss_nonneg_witness :
    0 ≤ (SmoothL1Forward wState3 [wPred, wTarg, wIn, wOut] wTop).2.data 0 :=
  smoothL1_loss_nonneg wState3 [wPred, wTarg, wIn, wOut] wTop 1 (by norm_num)
    (by norm_num [wState3]) (fun _ _ => rfl)
    (fun _ => by show (0:ℚ) ≤ 2; norm_num)
    (fun _ => by show (0:ℚ) ≤ 3; norm_num)

/-- Witness for C9 at concrete inputs. -/
theorem layers_deterministic_witness :
    SmoothL1Forward wState2 [wPred, wTarg] wTop =
      SmoothL1Forward wState2 [wPred, wTarg] wTop :=
  (layers_deterministic wState2 wState2 [wPred, wTarg] [wPred, wTarg]
    wTop wTop [true] [true] wPred wPred wTop wTop
    rfl rfl rfl rfl rfl rfl).2.1

/-- Witness for C10: a gradient element beyond `diff_.count()` is untouched. -/
theorem smoothL1_backward_frame_witness :
    (getB (SmoothL1Backward wState2 wTop [true, true]
      [wPred, wTarg]).2 0).diff 5 = (getB [wPred, wTarg] 0).diff 5 :=
  (smoothL1_backward_frame wState2 wTop [true, true] [wPred, wTarg]).1 0
    (by decide) (by decide) 5 (by decide)

end SynopsysCaffe
